import Mathlib

/-!
# Verification of the market-data ETL pipeline core

Shallow embedding of the decision logic of a small extract-transform-load
pipeline for option-volatility market data:

* the transform phase's expression parser and reference-rate mapping
  (`DataTransformer._parse_expression`, `_map_reference_rate`,
  `_apply_value_transformations` in `src/pipeline/transform/transformer.py`),
* the extract phase's versioning and re-fetch policy
  (`DataExtractor.extract_data`, `_should_fetch_data`, `_insert_raw_data`
  in `src/pipeline/extract/extractor.py`),
* the load phase's idempotent upsert and integrity check
  (`DataLoader.load_clean_data`, `_upsert_clean_record`,
  `validate_clean_data_integrity` in `src/pipeline/load/loader.py`).

Dates and timestamps are modelled as natural numbers, stored market values as
rationals, and the transformed (floating-point) values of the value adjuster
as real numbers.  Python exceptions are modelled with `Except`; the distinct
`raise` sites of the source get distinct error constructors so that the kind
of failure is observable.
-/

namespace MarketData

/-! ## Expression parsing (`DataTransformer`) -/

/-- One constructor per distinct failure site of `_parse_expression` /
`_map_reference_rate`.  `keyError` models the Python `KeyError` escaping the
dictionary lookup `currency_mapping[ref_indicator]`; `indexError` models the
`IndexError` from `parts[1]` on a body with a single token. -/
inductive ParseError where
  | notWrapped
  | badPrefix
  | indexError
  | badIndicator
  | badPartCount
  | invalidXTenor
  | invalidYTenor
  | unmappableRate
  | keyError
  | missingField
  deriving DecidableEq, Repr

/-- The list `[e.value for e in OptionExpiryEnum]` (models.py): x ∈ ['1y', '5y']. -/
def option_expiry_values : List String := ["1y", "5y"]

/-- The list `[e.value for e in SwapTenorEnum]` (models.py): y ∈ ['2y', '5y', '10y']. -/
def swap_tenor_values : List String := ["2y", "5y", "10y"]

/-- Python `str.split(",")` on the character list of a string. -/
def split_comma_chars : List Char → List String
  | [] => [""]
  | c :: cs =>
    let rest := split_comma_chars cs
    if c = ',' then "" :: rest
    else
      match rest with
      | [] => [String.mk [c]]
      | r :: rs => String.mk (c :: r.data) :: rs

/-- Python `expression[3:-1].split(",")`, with the wrapping already checked. -/
def expression_body_tokens (expression : String) : List String :=
  split_comma_chars ((expression.data.drop 3).dropLast)

/-- The `"GBP"` entry of `currency_ref_mapping`:
`{"default": "Libor", "SONIA": "SOFR"}`. -/
def gbp_mapping : String → Option String
  | "default" => some "Libor"
  | "SONIA" => some "SOFR"
  | _ => none

/-- The `"CHF"` entry of `currency_ref_mapping`:
`{"default": "Libor", "SARON": "SARON"}`. -/
def chf_mapping : String → Option String
  | "default" => some "Libor"
  | "SARON" => some "SARON"
  | _ => none

/-- Embeds `DataTransformer._map_reference_rate`.  A missing key in the nested
GBP/CHF dictionary raises `KeyError` in Python, modelled as
`.error .keyError`; returning Python `None` is `.ok none`. -/
def map_reference_rate (currency : String) (expression_parts : List String) :
    Except ParseError (Option String) :=
  if currency = "USD" then .ok (some "Libor")
  else if currency = "USDD" then .ok (some "SOFR")
  else if currency = "EUR" then .ok (some "Euribor")
  else if currency = "GBP" ∨ currency = "CHF" then
    let currency_mapping := if currency = "GBP" then gbp_mapping else chf_mapping
    if expression_parts.length = 8 then
      match currency_mapping (expression_parts.getD 3 "") with
      | some r => .ok (some r)
      | none => .error .keyError
    else
      match currency_mapping "default" with
      | some r => .ok (some r)
      | none => .error .keyError
  else .ok none

/-- The token-level part of `DataTransformer._parse_expression`, after the
`DB(...)` wrapping has been stripped and the body split on commas.
Returns `(normalized_currency, x_tenor, y_tenor, ref_rate)`. -/
def parse_parts (parts : List String) :
    Except ParseError (String × String × String × String) :=
  if parts.getD 0 "" ≠ "COV" then .error .badPrefix
  else if parts.length < 2 then .error .indexError
  else if parts.getD 1 "" ≠ "VOLSWAPTION" then .error .badPrefix
  else
    let fields : Except ParseError (String × String × String) :=
      if parts.length = 7 then
        .ok (parts.getD 2 "", parts.getD 3 "", parts.getD 4 "")
      else if parts.length = 8 then
        let currency := parts.getD 2 ""
        let ref_indicator := parts.getD 3 ""
        if (currency = "GBP" ∨ currency = "CHF") ∧
            ¬ (ref_indicator = "SONIA" ∨ ref_indicator = "SARON") then
          .error .badIndicator
        else
          .ok (currency, parts.getD 4 "", parts.getD 5 "")
      else .error .badPartCount
    match fields with
    | .error e => .error e
    | .ok (currency, y_tenor, x_tenor) =>
      if x_tenor ∉ option_expiry_values then .error .invalidXTenor
      else if y_tenor ∉ swap_tenor_values then .error .invalidYTenor
      else
        match map_reference_rate currency parts with
        | .error e => .error e
        | .ok none => .error .unmappableRate
        | .ok (some ref_rate) =>
          let normalized_currency := if currency = "USDD" then "USD" else currency
          if normalized_currency = "" ∨ x_tenor = "" ∨ y_tenor = "" ∨ ref_rate = ""
          then .error .missingField
          else .ok (normalized_currency, x_tenor, y_tenor, ref_rate)

/-- Embeds `DataTransformer._parse_expression`:
check the `DB(`…`)` wrapping, split the body on commas, and parse. -/
def parse_expression (expression : String) :
    Except ParseError (String × String × String × String) :=
  if ¬ (expression.data.take 3 = ['D', 'B', '('] ∧
        expression.data.getLast? = some ')') then
    .error .notWrapped
  else parse_parts (expression_body_tokens expression)

/-- Embeds `DataTransformer._apply_value_transformations`: multiply by `sqrt(252)`
exactly when `(currency, ref_rate) = ("USD", "SOFR")`, else pass through. -/
noncomputable def apply_value_transformations
    (value : ℝ) (currency : String) (ref_rate : String) : ℝ :=
  if currency = "USD" ∧ ref_rate = "SOFR" then value * Real.sqrt 252
  else value

/-! ## Extraction (`DataExtractor`) -/

/-- The enum `RunModeEnum` (models.py). -/
inductive RunMode where
  | default
  | old_codes
  | historical
  deriving DecidableEq, Repr

/-- A row of the `raw_data` table (models.py `RawData`).  The database's
autoincrement primary key is modelled by assigning `raw_data_id :=
table length + 1` at insertion time; dates and timestamps are naturals,
values rationals. -/
structure RawData where
  raw_data_id : Nat
  expression : String
  date : Nat
  value : ℚ
  fetch_timestamp : Nat
  version : Nat
  ingestion_mode : RunMode
  source_file_uri : String
  deriving DecidableEq, Repr

/-- The versions of the raw rows for a given `(expression, date)`,
in table order. -/
def versions_for (s : List RawData) (e : String) (d : Nat) : List Nat :=
  (s.filter (fun r => r.expression = e ∧ r.date = d)).map (·.version)

/-- Number of raw rows for `(expression, date)` — the count behind the
`len(session.exec(stmt).all()) < 3` check of `_should_fetch_data`. -/
def raw_count (s : List RawData) (e : String) (d : Nat) : Nat :=
  (s.filter (fun r => r.expression = e ∧ r.date = d)).length

/-- The query `SELECT coalesce(max(version), 0) WHERE expression = e AND date = d`. -/
def max_version (s : List RawData) (e : String) (d : Nat) : Nat :=
  (versions_for s e d).foldr max 0

/-- Embeds `DataExtractor._should_fetch_data`: `historical` always fetches;
`default`/`old_codes` fetch while fewer than 3 rows exist for
`(expression, start_date)`. -/
def should_fetch_data (s : List RawData) (expression : String)
    (start_date _end_date : Nat) (mode : RunMode) : Bool :=
  match mode with
  | .historical => true
  | .default | .old_codes => raw_count s expression start_date < 3

/-- Append one raw row, with `version = coalesce(max(version), 0) + 1` for
its `(expression, date)` (the versioning query of `_insert_raw_data`). -/
def insert_raw_row (s : List RawData) (expression : String) (d : Nat) (v : ℚ)
    (blob_uri : String) (mode : RunMode) (ft : Nat) : List RawData :=
  s ++ [⟨s.length + 1, expression, d, v, ft,
         max_version s expression d + 1, mode, blob_uri⟩]

/-- Embeds `DataExtractor._insert_raw_data`: insert the fetched `(date, value)` rows
one by one, sharing one `fetch_timestamp`.  The `APIResponse` model
(models.py) validates `value > 0`; a failing row raises, which aborts the
remaining rows of this expression but keeps the rows already added to the
session.  Returns `(new table, rows_inserted, no exception raised)`. -/
def insert_raw_data (s : List RawData) (df : List (Nat × ℚ))
    (expression : String) (blob_uri : String) (mode : RunMode) (ft : Nat) :
    List RawData × Nat × Bool :=
  df.foldl
    (fun acc row =>
      match acc with
      | (st, n, ok) =>
        if ¬ ok then (st, n, false)
        else if ¬ ((0 : ℚ) < row.2) then (st, n, false)
        else (insert_raw_row st expression row.1 row.2 blob_uri mode ft,
              n + 1, true))
    (s, 0, true)

/-- The `APIRequest` model validators (models.py): `DB(`…`)` wrapping,
7 or 8 comma-separated parts starting `COV,VOLSWAPTION`, and
`end_date >= start_date`. -/
def valid_api_request (expression : String) (start_date end_date : Nat) : Bool :=
  decide (expression.data.take 3 = ['D', 'B', '(']
    ∧ expression.data.getLast? = some ')'
    ∧ ((expression_body_tokens expression).length = 7
        ∨ (expression_body_tokens expression).length = 8)
    ∧ (expression_body_tokens expression).getD 0 "" = "COV"
    ∧ (expression_body_tokens expression).getD 1 "" = "VOLSWAPTION"
    ∧ start_date ≤ end_date)

/-- The metrics dictionary of `DataExtractor.extract_data`. -/
structure ExtractMetrics where
  expressions_processed : Nat
  rows_fetched : Nat
  rows_inserted : Nat
  duplicates_detected : Nat
  errors : Nat
  deriving DecidableEq, Repr

def init_extract_metrics : ExtractMetrics := ⟨0, 0, 0, 0, 0⟩

/-- The one call-level failure of `extract_data`
(`ValueError` for a bad date range). -/
inductive ExtractError where
  | invalidDateRange
  deriving DecidableEq, Repr

/-- The source `DataExtractor._store_blob` is an external collaborator (blob storage);
only the returned URI matters here, modelled as a function of the inputs. -/
def mk_blob_uri (expression : String) (start_date end_date ft : Nat) : String :=
  "blob://market-data/" ++ expression ++ "_" ++ toString start_date ++ "_"
    ++ toString end_date ++ "_" ++ toString ft

/-- One iteration of the per-expression loop of `extract_data`:
request validation (failure is caught, counted in `errors`), the
`_should_fetch_data` gate, the fetch (empty result is a no-op), blob
storage, and `_insert_raw_data`. -/
def extract_step (fetch : String → Nat → Nat → List (Nat × ℚ))
    (start_date end_date : Nat) (mode : RunMode) (ft : Nat)
    (acc : List RawData × ExtractMetrics) (expression : String) :
    List RawData × ExtractMetrics :=
  let s := acc.1
  let m := acc.2
  if ¬ valid_api_request expression start_date end_date then
    (s, { m with errors := m.errors + 1 })
  else if ¬ should_fetch_data s expression start_date end_date mode then (s, m)
  else
    let df := fetch expression start_date end_date
    if df = [] then (s, m)
    else
      match insert_raw_data s df expression
          (mk_blob_uri expression start_date end_date ft) mode ft with
      | (s2, n, true) =>
        (s2, { m with
                expressions_processed := m.expressions_processed + 1,
                rows_fetched := m.rows_fetched + df.length,
                rows_inserted := m.rows_inserted + n })
      | (s2, _, false) => (s2, { m with errors := m.errors + 1 })

/-- Embeds `DataExtractor.extract_data`.  The date-range precondition for modes
`default`/`old_codes` is checked before the per-expression loop; the external
data source `MarketData.get_historical_data` is the collaborator `fetch`. -/
def extract_data (fetch : String → Nat → Nat → List (Nat × ℚ))
    (expressions : List String) (start_date end_date : Nat)
    (mode : RunMode) (ft : Nat) (s : List RawData) :
    Except ExtractError (List RawData × ExtractMetrics) :=
  if (mode = .default ∨ mode = .old_codes) ∧ start_date ≠ end_date then
    .error .invalidDateRange
  else
    .ok (expressions.foldl (extract_step fetch start_date end_date mode ft)
          (s, init_extract_metrics))

/-! ## Loading (`DataLoader`) -/

/-- A row of the `clean_data` table (models.py `CleanData`). -/
structure CleanData where
  expression : String
  date : Nat
  currency : String
  x : String
  y : String
  ref : String
  value : ℚ
  raw_data_id : Nat
  deriving DecidableEq, Repr

/-- The field-by-field overwrite performed by `_upsert_clean_record` on an
existing row: every mutable column is replaced by the candidate's value. -/
def overwrite_clean (c rec : CleanData) : CleanData :=
  { c with currency := rec.currency, x := rec.x, y := rec.y, ref := rec.ref,
           value := rec.value, raw_data_id := rec.raw_data_id }

/-- Overwrite the first row matching the candidate's `(expression, date)`
(the `.first()` of the existing-record lookup). -/
def update_first_clean (s : List CleanData) (rec : CleanData) : List CleanData :=
  match s with
  | [] => []
  | c :: cs =>
    if c.expression = rec.expression ∧ c.date = rec.date then
      overwrite_clean c rec :: cs
    else c :: update_first_clean cs rec

/-- Embeds `DataLoader._upsert_clean_record`: insert when no row exists for the
candidate's `(expression, date)`, otherwise overwrite the first existing row
in place.  The `Bool` is `true` for `"inserted"`, `false` for `"updated"`. -/
def upsert_clean_record (s : List CleanData) (rec : CleanData) :
    List CleanData × Bool :=
  match s.find? (fun c => c.expression = rec.expression ∧ c.date = rec.date) with
  | none => (s ++ [rec], true)
  | some _ => (update_first_clean s rec, false)

/-- The metrics dictionary of `DataLoader.load_clean_data`. -/
structure LoadMetrics where
  records_processed : Nat
  records_inserted : Nat
  records_updated : Nat
  records_failed : Nat
  deriving DecidableEq, Repr

/-- Embeds `DataLoader.load_clean_data`: upsert each candidate in order,
counting inserts and updates. -/
def load_clean_data (clean_records : List CleanData) (s : List CleanData) :
    List CleanData × LoadMetrics :=
  clean_records.foldl
    (fun acc rec =>
      let step := upsert_clean_record acc.1 rec
      (step.1,
       { acc.2 with
          records_processed := acc.2.records_processed + 1,
          records_inserted := acc.2.records_inserted + (if step.2 then 1 else 0),
          records_updated := acc.2.records_updated + (if step.2 then 0 else 1) }))
    (s, ⟨0, 0, 0, 0⟩)

/-- Number of clean rows for a given `(expression, date)`. -/
def clean_count (s : List CleanData) (e : String) (d : Nat) : Nat :=
  (s.filter (fun c => c.expression = e ∧ c.date = d)).length

/-! ## Integrity check (`DataLoader.validate_clean_data_integrity`) -/

/-- The integrity report dictionary. -/
structure IntegrityReport where
  valid : Bool
  issues : List String
  duplicate_combinations : Nat
  validation_fetch_timestamp : Option Nat
  records_checked : Nat
  deriving DecidableEq, Repr

/-- The query `SELECT fetch_timestamp ORDER BY fetch_timestamp DESC LIMIT 1`. -/
def latest_fetch_timestamp (raws : List RawData) : Option Nat :=
  (raws.map (·.fetch_timestamp)).max?

/-- The rows of `CleanData JOIN RawData ON (expression, date) WHERE
RawData.fetch_timestamp = latest` — one `CleanData` row per matching
`(clean, raw)` pair. -/
def joined_clean_at_latest (raws : List RawData) (cleans : List CleanData)
    (latest : Nat) : List CleanData :=
  cleans.flatMap (fun c =>
    (raws.filter (fun r => c.expression = r.expression ∧ c.date = r.date
        ∧ r.fetch_timestamp = latest)).map (fun _ => c))

/-- The seen-set loop of `validate_clean_data_integrity`: each occurrence of
an `(expression, date)` pair beyond its first adds one to `duplicates`. -/
def count_repeats (seen : List (String × Nat)) :
    List (String × Nat) → Nat
  | [] => 0
  | p :: ps =>
    if p ∈ seen then 1 + count_repeats seen ps
    else count_repeats (p :: seen) ps

/-- The body of `validate_clean_data_integrity` once a most recent
`fetch_timestamp` exists. -/
def integrity_for_latest (raws : List RawData) (cleans : List CleanData)
    (latest : Nat) : IntegrityReport :=
  let latest_clean_data := joined_clean_at_latest raws cleans latest
  let dups := count_repeats []
    (latest_clean_data.map (fun c => (c.expression, c.date)))
  if 0 < dups then
    { valid := false,
      issues := ["Found " ++ toString dups
        ++ " duplicate expression+date combinations for fetch_timestamp "
        ++ toString latest],
      duplicate_combinations := dups,
      validation_fetch_timestamp := some latest,
      records_checked := latest_clean_data.length }
  else
    { valid := true, issues := [], duplicate_combinations := 0,
      validation_fetch_timestamp := some latest,
      records_checked := latest_clean_data.length }

/-- Embeds `DataLoader.validate_clean_data_integrity`. -/
def validate_clean_data_integrity (raws : List RawData)
    (cleans : List CleanData) : IntegrityReport :=
  match latest_fetch_timestamp raws with
  | none =>
    { valid := true, issues := ["No raw data records found"],
      duplicate_combinations := 0, validation_fetch_timestamp := none,
      records_checked := 0 }
  | some latest => integrity_for_latest raws cleans latest

/-! ## Selection of raw rows to transform
(`DataTransformer._get_raw_data_to_process`) -/

/-- The rows the left outer join contributes for one raw row: each matching
clean row, or a single `none` row when no clean row matches. -/
def join_rows_for (cleans : List CleanData) (r : RawData) :
    List (RawData × Option CleanData) :=
  match cleans.filter
      (fun c => c.expression = r.expression ∧ c.date = r.date) with
  | [] => [(r, none)]
  | ms => ms.map (fun c => (r, some c))

/-- The left outer join of `raw_data` with `clean_data` on
`(expression, date)`. -/
def selection_join (raws : List RawData) (cleans : List CleanData) :
    List (RawData × Option CleanData) :=
  raws.flatMap (join_rows_for cleans)

/-- The `WHERE` clause of the selection query: no matching clean row
(`clean_data_id IS NULL`) or the raw row is newer than the clean row's
reference (`RawData.raw_data_id > CleanData.raw_data_id`;
`CleanData.raw_data_id` is non-nullable, so it is non-NULL on any match). -/
def selection_where (row : RawData × Option CleanData) : Bool :=
  match row.2 with
  | none => true
  | some c => decide (c.raw_data_id < row.1.raw_data_id)

/-- The `ORDER BY raw_data_id` comparison. -/
def le_by_id (r1 r2 : RawData) : Bool := r1.raw_data_id ≤ r2.raw_data_id

/-- The default selection statement: join, filter, order by `raw_data_id`. -/
def default_selection (raws : List RawData) (cleans : List CleanData) :
    List RawData :=
  (((selection_join raws cleans).filter selection_where).map (·.1)).mergeSort
    le_by_id

/-- Embeds `DataTransformer._get_raw_data_to_process`: `if raw_data_ids:` is Python
truthiness, so both `None` and the empty list fall through to the default
selection query. -/
def get_raw_data_to_process (raws : List RawData) (cleans : List CleanData)
    (raw_data_ids : Option (List Nat)) : List RawData :=
  match raw_data_ids with
  | some ids =>
    if ids ≠ [] then raws.filter (fun r => r.raw_data_id ∈ ids)
    else default_selection raws cleans
  | none => default_selection raws cleans

/-! ## Auxiliary definitions used by the statements -/

/-- A sequence of single-row `_insert_raw_data` calls, each inserting one
`(expression, date, value)` fact; models repeated fetch-and-insert rounds,
interleaved across arbitrary `(expression, date)` pairs. -/
def apply_raw_inserts (ops : List (String × Nat × ℚ)) (uri : String)
    (mode : RunMode) (ft : Nat) (s : List RawData) : List RawData :=
  ops.foldl
    (fun st op => (insert_raw_data st [(op.2.1, op.2.2)] op.1 uri mode ft).1)
    s

/-- The versioning invariant of the `raw_data` table: for every
`(expression, date)`, the versions in table order are exactly `1, 2, …, n`. -/
def raw_versions_invariant (s : List RawData) : Prop :=
  ∀ e d, versions_for s e d = List.range' 1 (versions_for s e d).length

/-- Modelled from the spec's words ("counts how many (expression, date)
pairs appear more than once in that result set"): the number of distinct
pairs occurring more than once.  Stated only to be compared against the
count the code computes. -/
def spec_duplicate_pair_count (pairs : List (String × Nat)) : Nat :=
  (pairs.toFinset.filter (fun p => 1 < pairs.count p)).card

/-- The `(expression, date)` pairs of the joined result set that the
integrity check iterates over. -/
def joined_pairs (raws : List RawData) (cleans : List CleanData)
    (latest : Nat) : List (String × Nat) :=
  (joined_clean_at_latest raws cleans latest).map (fun c => (c.expression, c.date))

/-- The `clean_data` uniqueness constraint `uq_clean_data_combination` on
`(expression, date)` (models.py): any two stored rows agreeing on the key
are the same row. -/
def clean_unique_keys (cleans : List CleanData) : Prop :=
  ∀ c1 ∈ cleans, ∀ c2 ∈ cleans,
    c1.expression = c2.expression → c1.date = c2.date → c1 = c2

end MarketData

deriving instance DecidableEq for Except

namespace MarketData

/-! ## C1: the two parse-and-adjust scenarios -/

/-- C1: `"DB(COV,VOLSWAPTION,USDD,10y,5y,PAYER,VOLBPVOL)"` parses to
normalized currency `USD`, option-expiry `5y`, swap-tenor `10y`, rate `SOFR`,
and the value adjustment turns a raw value `100` into `100 * sqrt 252`;
`"DB(COV,VOLSWAPTION,USD,2y,1y,PAYER,VOLBPVOL)"` parses to currency `USD`,
expiry `1y`, tenor `2y`, rate `Libor`, and the value passes through
unchanged. -/
theorem claim_c1_parse_and_adjust_scenarios :
    parse_expression "DB(COV,VOLSWAPTION,USDD,10y,5y,PAYER,VOLBPVOL)"
      = .ok ("USD", "5y", "10y", "SOFR")
    ∧ apply_value_transformations 100 "USD" "SOFR" = 100 * Real.sqrt 252
    ∧ parse_expression "DB(COV,VOLSWAPTION,USD,2y,1y,PAYER,VOLBPVOL)"
      = .ok ("USD", "1y", "2y", "Libor")
    ∧ (∀ v : ℝ, apply_value_transformations v "USD" "Libor" = v) := by
  refine ⟨by decide, ?_, by decide, ?_⟩
  · rw [apply_value_transformations, if_pos ⟨rfl, rfl⟩]
  · intro v
    rw [apply_value_transformations, if_neg (by simp)]

/-! ## C5: the value adjustment is USD-SOFR-only and exact -/

/-- C5: `adjust(v, "USD", "SOFR") = v * sqrt 252` for all `v`, every other
`(currency, rate)` pair passes the value through unchanged, and in particular
the GBP expression with the SONIA indicator resolves to rate `SOFR` but with
currency `GBP`, so it receives no adjustment. -/
theorem claim_c5_adjustment_exact :
    (∀ v : ℝ, apply_value_transformations v "USD" "SOFR" = v * Real.sqrt 252)
    ∧ (∀ (v : ℝ) (c r : String), ¬ (c = "USD" ∧ r = "SOFR") →
        apply_value_transformations v c r = v)
    ∧ parse_expression "DB(COV,VOLSWAPTION,GBP,SONIA,2y,1y,PAYER,VOLBPVOL)"
      = .ok ("GBP", "1y", "2y", "SOFR")
    ∧ (∀ v : ℝ, apply_value_transformations v "GBP" "SOFR" = v) := by
  refine ⟨?_, ?_, by decide, ?_⟩
  · intro v
    rw [apply_value_transformations, if_pos ⟨rfl, rfl⟩]
  · intro v c r h
    rw [apply_value_transformations, if_neg h]
  · intro v
    rw [apply_value_transformations, if_neg (by simp)]

/-- Witness for C5 at a concrete non-adjusted pair. -/
theorem claim_c5_adjustment_exact_witness :
    apply_value_transformations 2 "EUR" "Euribor" = 2 :=
  claim_c5_adjustment_exact.2.1 2 "EUR" "Euribor" (by simp)

/-! ## C6: date-range precondition of `extract_data` -/

/-- C6: in modes `default` and `old_codes`, a call with
`start_date ≠ end_date` fails with the date-range error before any
per-expression work, for every fetch collaborator and every starting store
(so no storage state changes); in mode `historical` the call-level check
accepts any range. -/
theorem claim_c6_date_range_precondition :
    (∀ fetch expressions start_date end_date mode ft s,
      (mode = RunMode.default ∨ mode = RunMode.old_codes) →
      start_date ≠ end_date →
      extract_data fetch expressions start_date end_date mode ft s
        = .error .invalidDateRange)
    ∧ (∀ fetch expressions start_date end_date ft s, ∃ out,
        extract_data fetch expressions start_date end_date
          RunMode.historical ft s = .ok out) := by
  constructor
  · intro fetch expressions start_date end_date mode ft s hmode hne
    rw [extract_data, if_pos ⟨hmode, hne⟩]
  · intro fetch expressions start_date end_date ft s
    refine ⟨expressions.foldl
      (extract_step fetch start_date end_date RunMode.historical ft)
      (s, init_extract_metrics), ?_⟩
    rw [extract_data, if_neg (by simp)]

/-- Witness for C6: a concrete `default`-mode call over a two-day range. -/
theorem claim_c6_date_range_precondition_witness :
    extract_data (fun _ _ _ => []) ["E"] 0 1 RunMode.default 0 []
      = .error .invalidDateRange :=
  claim_c6_date_range_precondition.1 _ _ _ _ _ _ _ (Or.inl rfl) (by decide)

/-! ## C8: which error a failed rate mapping raises -/

/-- C8 counterexample: for currency `GBP` carrying the `SARON` indicator the
parse failure is the `KeyError` escaping the nested dictionary lookup, not
the designated mapping-failure (`UnmappableReferenceRateError`) raise site,
contradicting the claim that every unmappable combination fails with the
designated error. -/
theorem claim_c8_counterexample :
    parse_expression "DB(COV,VOLSWAPTION,GBP,SARON,2y,1y,PAYER,VOLBPVOL)"
      = .error .keyError
    ∧ ParseError.keyError ≠ ParseError.unmappableRate := by decide

/-- C8 amended: an unknown currency (outside USD/USDD/EUR/GBP/CHF) with
otherwise valid tokens fails with the designated mapping-failure error, but
`GBP` with `SARON` and `CHF` with `SONIA` (indicators that pass the parser's
indicator check yet are missing from that currency's mapping dictionary)
fail with a `KeyError` instead. -/
theorem claim_c8_unmappable_amended :
    (∀ currency y x t5 t6 : String,
      currency ∉ ["USD", "USDD", "EUR", "GBP", "CHF"] →
      y ∈ swap_tenor_values → x ∈ option_expiry_values →
      parse_parts ["COV", "VOLSWAPTION", currency, y, x, t5, t6]
        = .error .unmappableRate)
    ∧ parse_expression "DB(COV,VOLSWAPTION,GBP,SARON,2y,1y,PAYER,VOLBPVOL)"
      = .error .keyError
    ∧ parse_expression "DB(COV,VOLSWAPTION,CHF,SONIA,2y,1y,PAYER,VOLBPVOL)"
      = .error .keyError := by
  refine ⟨?_, by decide, by decide⟩
  intro currency y x t5 t6 hc hy hx
  simp only [List.mem_cons, List.not_mem_nil, or_false] at hc
  push_neg at hc
  obtain ⟨h1, h2, h3, h4, h5⟩ := hc
  simp [parse_parts, map_reference_rate, h1, h2, h3, h4, h5, hy, hx]

/-- Witness for C8 at a concrete unknown currency. -/
theorem claim_c8_unmappable_amended_witness :
    parse_parts ["COV", "VOLSWAPTION", "JPY", "2y", "1y", "PAYER", "VOLBPVOL"]
      = .error .unmappableRate :=
  claim_c8_unmappable_amended.1 "JPY" "2y" "1y" "PAYER" "VOLBPVOL"
    (by decide) (by decide) (by decide)

/-! ## C9: trailing tokens of a 7-token body -/

/-- C9 counterexample: a 7-token body whose trailing tokens differ from the
fixed literals `PAYER,VOLBPVOL` parses successfully — the claim that parse
fails on such tokens is false. -/
theorem claim_c9_counterexample :
    parse_expression "DB(COV,VOLSWAPTION,USD,2y,1y,FOO,BAR)"
      = .ok ("USD", "1y", "2y", "Libor") := by decide

/-! ## Helper lemmas for the selection query -/

theorem mem_join_rows_for {cleans : List CleanData} {r : RawData}
    {row : RawData × Option CleanData} :
    row ∈ join_rows_for cleans r ↔
      (row = (r, none) ∧
        ∀ c ∈ cleans, ¬ (c.expression = r.expression ∧ c.date = r.date))
      ∨ ∃ c ∈ cleans, (c.expression = r.expression ∧ c.date = r.date)
          ∧ row = (r, some c) := by
  rw [join_rows_for]
  rcases h : cleans.filter
      (fun c => c.expression = r.expression ∧ c.date = r.date) with _ | ⟨c0, ms⟩
  · rw [h]
    have hnone := List.filter_eq_nil_iff.mp h
    show row ∈ [(r, none)] ↔ _
    simp only [List.mem_singleton]
    constructor
    · intro hr
      refine Or.inl ⟨hr, fun c hc hkey => ?_⟩
      have := hnone c hc
      simp [hkey] at this
    · rintro (⟨hr, _⟩ | ⟨c, hc, hkey, _⟩)
      · exact hr
      · have := hnone c hc
        simp [hkey] at this
  · rw [h]
    have hc0 : c0 ∈ cleans.filter
        (fun c => c.expression = r.expression ∧ c.date = r.date) := by
      rw [h]; exact List.mem_cons_self _ _
    rw [List.mem_filter] at hc0
    show row ∈ (c0 :: ms).map (fun c => (r, some c)) ↔ _
    constructor
    · intro hrow
      rw [List.mem_map] at hrow
      obtain ⟨c, hc, rfl⟩ := hrow
      have hc' : c ∈ cleans.filter
          (fun c => c.expression = r.expression ∧ c.date = r.date) := by
        rw [h]; exact hc
      rw [List.mem_filter] at hc'
      exact Or.inr ⟨c, hc'.1, by simpa using hc'.2, rfl⟩
    · rintro (⟨_, hnone⟩ | ⟨c, hc, hkey, rfl⟩)
      · exact absurd (by simpa using hc0.2) (hnone c0 hc0.1)
      · rw [List.mem_map]
        refine ⟨c, ?_, rfl⟩
        rw [← h, List.mem_filter]
        exact ⟨hc, by simpa using hkey⟩

theorem mem_default_selection {raws : List RawData} {cleans : List CleanData}
    (hU : clean_unique_keys cleans) {r : RawData} :
    r ∈ default_selection raws cleans ↔
      r ∈ raws ∧ ∀ c ∈ cleans, c.expression = r.expression → c.date = r.date →
        c.raw_data_id < r.raw_data_id := by
  rw [default_selection, List.mem_mergeSort, List.mem_map]
  constructor
  · rintro ⟨row, hrow, rfl⟩
    rw [List.mem_filter] at hrow
    obtain ⟨hj, hw⟩ := hrow
    rw [selection_join, List.mem_flatMap] at hj
    obtain ⟨a, ha, hrow⟩ := hj
    rw [mem_join_rows_for] at hrow
    rcases hrow with ⟨rfl, hnone⟩ | ⟨c, hc, hkey, rfl⟩
    · exact ⟨ha, fun c hc he hd => absurd ⟨he, hd⟩ (hnone c hc)⟩
    · refine ⟨ha, fun c' hc' he hd => ?_⟩
      have heq : c' = c := hU c' hc' c hc (he.trans hkey.1.symm) (hd.trans hkey.2.symm)
      subst heq
      simpa [selection_where] using hw
  · rintro ⟨hr, hcond⟩
    rcases hfil : cleans.filter
        (fun c => c.expression = r.expression ∧ c.date = r.date) with _ | ⟨c0, ms⟩
    · refine ⟨(r, none), ?_, rfl⟩
      rw [List.mem_filter]
      refine ⟨?_, rfl⟩
      rw [selection_join, List.mem_flatMap]
      refine ⟨r, hr, mem_join_rows_for.mpr (Or.inl ⟨rfl, fun c hc hkey => ?_⟩)⟩
      have := List.filter_eq_nil_iff.mp hfil c hc
      simp [hkey] at this
    · have hc0 : c0 ∈ cleans.filter
          (fun c => c.expression = r.expression ∧ c.date = r.date) := by
        rw [hfil]; exact List.mem_cons_self _ _
      rw [List.mem_filter] at hc0
      have hkey : c0.expression = r.expression ∧ c0.date = r.date := by
        simpa using hc0.2
      refine ⟨(r, some c0), ?_, rfl⟩
      rw [List.mem_filter]
      constructor
      · rw [selection_join, List.mem_flatMap]
        exact ⟨r, hr, mem_join_rows_for.mpr (Or.inr ⟨c0, hc0.1, hkey, rfl⟩)⟩
      · simpa [selection_where] using hcond c0 hc0.1 hkey.1 hkey.2

theorem default_selection_sorted (raws : List RawData) (cleans : List CleanData) :
    List.Sorted (fun r1 r2 : RawData => r1.raw_data_id ≤ r2.raw_data_id)
      (default_selection raws cleans) := by
  have h := @List.sorted_mergeSort RawData le_by_id
    (fun a b c hab hbc => by
      simp only [le_by_id, decide_eq_true_eq] at *; omega)
    (fun a b => by
      simp only [le_by_id, Bool.or_eq_true, decide_eq_true_eq]; omega)
    (((selection_join raws cleans).filter selection_where).map (·.1))
  exact h.imp (fun hab => by simpa [le_by_id] using hab)

/-! ## C10: an empty id list runs the default selection -/

/-- C10: passing an explicitly empty list of raw ids is treated identically
to omitting the argument — the default selection policy runs: it returns,
ordered by `raw_data_id` ascending, exactly the raw rows that have no clean
row for their `(expression, date)` or are newer than the clean row's current
raw reference (assuming the table's uniqueness constraint on clean keys). -/
theorem claim_c10_empty_ids_default_selection
    (raws : List RawData) (cleans : List CleanData) :
    get_raw_data_to_process raws cleans (some [])
      = get_raw_data_to_process raws cleans none
    ∧ List.Sorted (fun r1 r2 : RawData => r1.raw_data_id ≤ r2.raw_data_id)
        (get_raw_data_to_process raws cleans (some []))
    ∧ (clean_unique_keys cleans →
        ∀ r : RawData, r ∈ get_raw_data_to_process raws cleans (some []) ↔
          r ∈ raws ∧ ∀ c ∈ cleans, c.expression = r.expression →
            c.date = r.date → c.raw_data_id < r.raw_data_id) := by
  refine ⟨rfl, ?_, ?_⟩
  · exact default_selection_sorted raws cleans
  · intro hU r
    exact mem_default_selection hU

/-- Witness for C10: concrete one-row store with no clean rows. -/
theorem claim_c10_empty_ids_default_selection_witness :
    (⟨1, "E", 0, 1, 5, 1, RunMode.default, "u"⟩ : RawData) ∈
        get_raw_data_to_process
          [⟨1, "E", 0, 1, 5, 1, RunMode.default, "u"⟩] [] (some [])
      ↔ (⟨1, "E", 0, 1, 5, 1, RunMode.default, "u"⟩ : RawData) ∈
          [(⟨1, "E", 0, 1, 5, 1, RunMode.default, "u"⟩ : RawData)]
        ∧ ∀ c ∈ ([] : List CleanData),
            c.expression = "E" → c.date = 0 → c.raw_data_id < 1 :=
  (claim_c10_empty_ids_default_selection
      [⟨1, "E", 0, 1, 5, 1, RunMode.default, "u"⟩] []).2.2
    (fun c hc => absurd hc (List.not_mem_nil c))
    ⟨1, "E", 0, 1, 5, 1, RunMode.default, "u"⟩

/-- C9 amended: for a 7-token body the trailing tokens 5 and 6 are not
validated at all: the parse result is entirely independent of them, and a
body with arbitrary trailing tokens parses successfully when the other
fields are valid. -/
theorem claim_c9_trailing_tokens_amended :
    (∀ c y x t5 t6 t5' t6' : String,
      parse_parts ["COV", "VOLSWAPTION", c, y, x, t5, t6]
        = parse_parts ["COV", "VOLSWAPTION", c, y, x, t5', t6'])
    ∧ parse_expression "DB(COV,VOLSWAPTION,USDD,10y,5y,X,Y)"
      = .ok ("USD", "5y", "10y", "SOFR") := by
  refine ⟨?_, by decide⟩
  intro c y x t5 t6 t5' t6'
  rfl

/-! ## Helper lemmas for the loader upsert -/

theorem overwrite_clean_self (c : CleanData) : overwrite_clean c c = c := rfl

theorem find?_clean_none {s : List CleanData} {rec : CleanData}
    (h : ∀ c ∈ s, ¬ (c.expression = rec.expression ∧ c.date = rec.date)) :
    s.find? (fun c => c.expression = rec.expression ∧ c.date = rec.date)
      = none := by
  rw [List.find?_eq_none]
  intro c hc
  simpa using h c hc

theorem find?_clean_append_single {s : List CleanData} {rec : CleanData}
    (h : ∀ c ∈ s, ¬ (c.expression = rec.expression ∧ c.date = rec.date)) :
    (s ++ [rec]).find?
        (fun c => c.expression = rec.expression ∧ c.date = rec.date)
      = some rec := by
  induction s with
  | nil => simp
  | cons a s ih =>
    have ha := h a (List.mem_cons_self a s)
    rw [List.cons_append, List.find?_cons_of_neg _ (by simpa using ha)]
    exact ih (fun c hc => h c (List.mem_cons_of_mem a hc))

theorem update_first_clean_no_match {s : List CleanData} {rec : CleanData}
    (h : ∀ c ∈ s, ¬ (c.expression = rec.expression ∧ c.date = rec.date)) :
    update_first_clean (s ++ [rec]) rec = s ++ [rec] := by
  induction s with
  | nil => simp [update_first_clean, overwrite_clean_self]
  | cons a s ih =>
    have ha := h a (List.mem_cons_self a s)
    rw [List.cons_append, update_first_clean, if_neg ha,
      ih (fun c hc => h c (List.mem_cons_of_mem a hc))]

theorem find?_update_first_clean :
    ∀ {s : List CleanData} {rec c : CleanData},
    s.find? (fun c0 => c0.expression = rec.expression ∧ c0.date = rec.date)
      = some c →
    (update_first_clean s rec).find?
        (fun c0 => c0.expression = rec.expression ∧ c0.date = rec.date)
      = some (overwrite_clean c rec) := by
  intro s
  induction s with
  | nil => intro rec c hfind; simp at hfind
  | cons a s ih =>
    intro rec c hfind
    by_cases hp : a.expression = rec.expression ∧ a.date = rec.date
    · rw [List.find?_cons_of_pos _ (by simpa using hp)] at hfind
      obtain rfl : a = c := by simpa using hfind
      rw [update_first_clean, if_pos hp,
        List.find?_cons_of_pos _ (by simpa [overwrite_clean] using hp)]
    · rw [List.find?_cons_of_neg _ (by simpa using hp)] at hfind
      rw [update_first_clean, if_neg hp,
        List.find?_cons_of_neg _ (by simpa using hp)]
      exact ih hfind

/-! ## C4: the loader upsert is an idempotent overwrite -/

/-- C4: loading a candidate twice on a store with no row for its
`(expression, date)` reports "inserted" then "updated" (not "inserted"),
leaves exactly one clean row for that key (equal to the candidate), and in
general an upsert on a present key overwrites every mutable field of the
first existing row with the candidate's values, with no version check. -/
theorem claim_c4_upsert_idempotent (rec : CleanData) (s : List CleanData)
    (h : clean_count s rec.expression rec.date = 0) :
    (load_clean_data [rec] s).2.records_inserted = 1
    ∧ (load_clean_data [rec] s).2.records_updated = 0
    ∧ (load_clean_data [rec] (load_clean_data [rec] s).1).2.records_inserted = 0
    ∧ (load_clean_data [rec] (load_clean_data [rec] s).1).2.records_updated = 1
    ∧ (load_clean_data [rec] (load_clean_data [rec] s).1).1.filter
        (fun c => c.expression = rec.expression ∧ c.date = rec.date) = [rec]
    ∧ (∀ (s2 : List CleanData) (rec2 c : CleanData),
        s2.find? (fun c0 => c0.expression = rec2.expression
            ∧ c0.date = rec2.date) = some c →
        upsert_clean_record s2 rec2 = (update_first_clean s2 rec2, false)
        ∧ (update_first_clean s2 rec2).find?
            (fun c0 => c0.expression = rec2.expression ∧ c0.date = rec2.date)
          = some (overwrite_clean c rec2)) := by
  have hnm : ∀ c ∈ s, ¬ (c.expression = rec.expression ∧ c.date = rec.date) := by
    intro c hc
    have hfil : s.filter
        (fun c => c.expression = rec.expression ∧ c.date = rec.date) = [] :=
      List.length_eq_zero.mp h
    have := List.filter_eq_nil_iff.mp hfil c hc
    simpa using this
  have h1 : upsert_clean_record s rec = (s ++ [rec], true) := by
    rw [upsert_clean_record, find?_clean_none hnm]
  have hload1 : load_clean_data [rec] s = (s ++ [rec], ⟨1, 1, 0, 0⟩) := by
    simp [load_clean_data, h1]
  have hfind2 : (s ++ [rec]).find?
      (fun c => c.expression = rec.expression ∧ c.date = rec.date) = some rec :=
    find?_clean_append_single hnm
  have h2 : upsert_clean_record (s ++ [rec]) rec = (s ++ [rec], false) := by
    rw [upsert_clean_record, hfind2, update_first_clean_no_match hnm]
  have hload2 : load_clean_data [rec] (s ++ [rec]) = (s ++ [rec], ⟨1, 0, 1, 0⟩) := by
    simp [load_clean_data, h2]
  refine ⟨by rw [hload1], by rw [hload1], ?_, ?_, ?_, ?_⟩
  · rw [hload1, hload2]
  · rw [hload1, hload2]
  · rw [hload1, hload2]
    rw [List.filter_append, List.filter_eq_nil_iff.mpr
      (fun c hc => by simpa using hnm c hc)]
    simp
  · intro s2 rec2 c hfind
    constructor
    · rw [upsert_clean_record, hfind]
    · exact find?_update_first_clean hfind

/-- Witness for C4 at a concrete candidate on an empty store. -/
theorem claim_c4_upsert_idempotent_witness :
    (load_clean_data [⟨"E", 0, "USD", "1y", "2y", "Libor", 5, 1⟩] ([] : List CleanData)).2.records_inserted = 1
    ∧ (load_clean_data [⟨"E", 0, "USD", "1y", "2y", "Libor", 5, 1⟩]
        (load_clean_data [⟨"E", 0, "USD", "1y", "2y", "Libor", 5, 1⟩]
          ([] : List CleanData)).1).2.records_updated = 1 :=
  ⟨(claim_c4_upsert_idempotent ⟨"E", 0, "USD", "1y", "2y", "Libor", 5, 1⟩ []
      (by decide)).1,
   (claim_c4_upsert_idempotent ⟨"E", 0, "USD", "1y", "2y", "Libor", 5, 1⟩ []
      (by decide)).2.2.2.1⟩

/-! ## Helper lemmas for raw versioning -/

theorem versions_for_append (s : List RawData) (r : RawData) (e : String)
    (d : Nat) :
    versions_for (s ++ [r]) e d
      = versions_for s e d
        ++ (if r.expression = e ∧ r.date = d then [r.version] else []) := by
  rw [versions_for, versions_for, List.filter_append, List.map_append]
  by_cases h : r.expression = e ∧ r.date = d
  · simp [h]
  · simp [h]

theorem foldr_max_range' (n : ℕ) :
    ∀ m : ℕ, (List.range' 1 n).foldr max m = max n m := by
  induction n with
  | zero => intro m; simp
  | succ k ih =>
    intro m
    rw [List.range'_concat, List.foldr_append]
    simp only [List.foldr_cons, List.foldr_nil]
    rw [ih]
    omega

theorem max_version_eq_length {s : List RawData} {e : String} {d : Nat}
    (h : versions_for s e d = List.range' 1 (versions_for s e d).length) :
    max_version s e d = (versions_for s e d).length := by
  have h' : max_version s e d
      = (List.range' 1 (versions_for s e d).length).foldr max 0 := by
    rw [max_version]
    exact congrArg (fun l => l.foldr max 0) h
  rw [h', foldr_max_range']
  simp

theorem insert_raw_row_versions (s : List RawData) (e : String) (d : Nat)
    (v : ℚ) (uri : String) (mode : RunMode) (ft : Nat) (e' : String)
    (d' : Nat) :
    versions_for (insert_raw_row s e d v uri mode ft) e' d'
      = versions_for s e' d'
        ++ (if e = e' ∧ d = d' then [max_version s e d + 1] else []) := by
  rw [insert_raw_row, versions_for_append]

theorem raw_versions_invariant_nil : raw_versions_invariant [] := by
  intro e d
  simp [versions_for]

theorem insert_raw_row_invariant {s : List RawData}
    (hInv : raw_versions_invariant s) (e : String) (d : Nat) (v : ℚ)
    (uri : String) (mode : RunMode) (ft : Nat) :
    raw_versions_invariant (insert_raw_row s e d v uri mode ft) := by
  intro e' d'
  rw [insert_raw_row_versions]
  by_cases h : e = e' ∧ d = d'
  · obtain ⟨rfl, rfl⟩ := h
    rw [if_pos ⟨rfl, rfl⟩, max_version_eq_length (hInv e d)]
    have h1 : (versions_for s e d ++ [(versions_for s e d).length + 1]).length
        = (versions_for s e d).length + 1 := by simp
    rw [h1, List.range'_concat]
    congr 1
    · exact hInv e d
    · simp [Nat.add_comm]
  · rw [if_neg h, List.append_nil]
    exact hInv e' d'

theorem insert_raw_data_singleton (s : List RawData) (e : String) (d : Nat)
    (v : ℚ) (uri : String) (mode : RunMode) (ft : Nat) :
    insert_raw_data s [(d, v)] e uri mode ft
      = if (0 : ℚ) < v then (insert_raw_row s e d v uri mode ft, 1, true)
        else (s, 0, false) := by
  by_cases h : (0 : ℚ) < v
  · simp [insert_raw_data, h]
  · simp [insert_raw_data, h]

theorem apply_raw_inserts_spec (uri : String) (mode : RunMode) (ft : Nat) :
    ∀ (ops : List (String × Nat × ℚ)) (s : List RawData),
    (∀ op ∈ ops, (0 : ℚ) < op.2.2) → raw_versions_invariant s →
    raw_versions_invariant (apply_raw_inserts ops uri mode ft s)
    ∧ ∀ e d, (versions_for (apply_raw_inserts ops uri mode ft s) e d).length
        = (versions_for s e d).length
          + ops.countP (fun op => op.1 = e ∧ op.2.1 = d) := by
  intro ops
  induction ops with
  | nil =>
    intro s _ hInv
    exact ⟨hInv, fun e d => by simp [apply_raw_inserts]⟩
  | cons op ops ih =>
    intro s hpos hInv
    have hv : (0 : ℚ) < op.2.2 := hpos op (List.mem_cons_self op ops)
    have hstep : apply_raw_inserts (op :: ops) uri mode ft s
        = apply_raw_inserts ops uri mode ft
            (insert_raw_row s op.1 op.2.1 op.2.2 uri mode ft) := by
      simp only [apply_raw_inserts, List.foldl_cons,
        insert_raw_data_singleton, if_pos hv]
    rw [hstep]
    have hInv' := insert_raw_row_invariant hInv op.1 op.2.1 op.2.2 uri mode ft
    have hpos' : ∀ o ∈ ops, (0 : ℚ) < o.2.2 :=
      fun o ho => hpos o (List.mem_cons_of_mem op ho)
    obtain ⟨hI, hL⟩ := ih _ hpos' hInv'
    refine ⟨hI, fun e d => ?_⟩
    rw [hL e d, insert_raw_row_versions, List.countP_cons]
    by_cases h : op.1 = e ∧ op.2.1 = d
    · simp only [h, if_pos h, decide_eq_true_eq, List.length_append,
        List.length_cons, List.length_nil, if_true]
      simp [h]
      omega
    · simp [h]

theorem insert_raw_data_single_row (s : List RawData) (e : String)
    (row : Nat × ℚ) (uri : String) (mode : RunMode) (ft : Nat) :
    insert_raw_data s [row] e uri mode ft
      = if (0 : ℚ) < row.2 then
          (insert_raw_row s e row.1 row.2 uri mode ft, 1, true)
        else (s, 0, false) := by
  obtain ⟨a, b⟩ := row
  exact insert_raw_data_singleton s e a b uri mode ft

theorem raw_count_eq_versions_length (s : List RawData) (e : String)
    (d : Nat) : raw_count s e d = (versions_for s e d).length := by
  simp [raw_count, versions_for]

theorem raw_count_insert_raw_row (s : List RawData) (e : String) (d : Nat)
    (v : ℚ) (uri : String) (mode : RunMode) (ft : Nat) (e' : String)
    (d' : Nat) :
    raw_count (insert_raw_row s e d v uri mode ft) e' d'
      = raw_count s e' d' + (if e = e' ∧ d = d' then 1 else 0) := by
  rw [raw_count_eq_versions_length, raw_count_eq_versions_length,
    insert_raw_row_versions]
  by_cases h : e = e' ∧ d = d' <;> simp [h]

theorem fetch_single_date {df : List (Nat × ℚ)} {d : Nat}
    (hpair : df.Pairwise (fun a b => a.1 ≠ b.1))
    (hdates : ∀ row ∈ df, row.1 = d) (hne : df ≠ []) :
    ∃ row, df = [row] ∧ row.1 = d := by
  match df with
  | [] => exact absurd rfl hne
  | [row] => exact ⟨row, rfl, hdates row (List.mem_singleton_self row)⟩
  | r1 :: r2 :: rest =>
    have h1 : r1.1 = d := hdates r1 (List.mem_cons_self _ _)
    have h2 : r2.1 = d :=
      hdates r2 (List.mem_cons_of_mem r1 (List.mem_cons_self _ _))
    have hne12 := (List.pairwise_cons.mp hpair).1 r2 (List.mem_cons_self _ _)
    exact absurd (h1.trans h2.symm) hne12

theorem extract_step_cap {fetch : String → Nat → Nat → List (Nat × ℚ)}
    {d : Nat} {mode : RunMode} {ft : Nat}
    {acc : List RawData × ExtractMetrics} {ex : String}
    (hmode : mode = RunMode.default ∨ mode = RunMode.old_codes)
    (hpair : (fetch ex d d).Pairwise (fun a b => a.1 ≠ b.1))
    (hdates : ∀ row ∈ fetch ex d d, row.1 = d)
    (hcap : ∀ e' d', raw_count acc.1 e' d' ≤ 3) :
    ∀ e' d', raw_count (extract_step fetch d d mode ft acc ex).1 e' d' ≤ 3 := by
  obtain ⟨s, m⟩ := acc
  replace hcap : ∀ e' d', raw_count s e' d' ≤ 3 := hcap
  intro e' d'
  simp only [extract_step]
  by_cases hV : valid_api_request ex d d
  · rw [if_neg (by simp [hV])]
    by_cases hF : should_fetch_data s ex d d mode
    · rw [if_neg (by simp [hF])]
      by_cases hE : fetch ex d d = []
      · rw [if_pos hE]
        exact hcap e' d'
      · rw [if_neg hE]
        obtain ⟨row, hdf, hrowd⟩ := fetch_single_date hpair hdates hE
        rw [hdf, insert_raw_data_single_row]
        by_cases hv : (0 : ℚ) < row.2
        · rw [if_pos hv]
          show raw_count
            (insert_raw_row s ex row.1 row.2 (mk_blob_uri ex d d ft) mode ft)
            e' d' ≤ 3
          rw [raw_count_insert_raw_row]
          have hlt : raw_count s ex d < 3 := by
            rcases hmode with rfl | rfl <;>
              simpa [should_fetch_data] using hF
          by_cases hkey : ex = e' ∧ row.1 = d'
          · rw [if_pos hkey]
            obtain ⟨rfl, rfl⟩ := hkey
            rw [hrowd]
            omega
          · rw [if_neg hkey]
            have := hcap e' d'
            omega
        · rw [if_neg hv]
          show raw_count s e' d' ≤ 3
          exact hcap e' d'
    · rw [if_pos (by simp [hF])]
      exact hcap e' d'
  · rw [if_pos (by simp [hV])]
    exact hcap e' d'

theorem extract_fold_cap {fetch : String → Nat → Nat → List (Nat × ℚ)}
    {d : Nat} {mode : RunMode} {ft : Nat}
    (hmode : mode = RunMode.default ∨ mode = RunMode.old_codes)
    (hpair : ∀ e, (fetch e d d).Pairwise (fun a b => a.1 ≠ b.1))
    (hdates : ∀ e, ∀ row ∈ fetch e d d, row.1 = d) :
    ∀ (exprs : List String) (acc : List RawData × ExtractMetrics),
    (∀ e' d', raw_count acc.1 e' d' ≤ 3) →
    ∀ e' d',
      raw_count ((exprs.foldl (extract_step fetch d d mode ft) acc).1) e' d'
        ≤ 3 := by
  intro exprs
  induction exprs with
  | nil => intro acc hcap; simpa using hcap
  | cons ex exprs ih =>
    intro acc hcap
    rw [List.foldl_cons]
    exact ih _ (extract_step_cap hmode (hpair ex) (hdates ex) hcap)

/-! ## C3: the three-version cap -/

/-- C3: in modes `default`/`old_codes`, `should_fetch` is true iff fewer
than 3 raw versions exist for `(expression, start_date)` (`historical`
always fetches); extraction in those modes over a single-day range (the only
range they accept) preserves the cap of 3 stored versions per
`(expression, date)` — assuming the data source returns at most one row per
date, as the business-day range does — and a fetch attempt when 3 versions
exist leaves the store unchanged (no new row). -/
theorem claim_c3_version_cap :
    (∀ (s : List RawData) (e : String) (sd ed : Nat) (mode : RunMode),
      (mode = RunMode.default ∨ mode = RunMode.old_codes) →
      (should_fetch_data s e sd ed mode = true ↔ raw_count s e sd < 3))
    ∧ (∀ (s : List RawData) (e : String) (sd ed : Nat),
        should_fetch_data s e sd ed RunMode.historical = true)
    ∧ (∀ (fetch : String → Nat → Nat → List (Nat × ℚ))
        (exprs : List String) (d : Nat) (mode : RunMode) (ft : Nat)
        (s out : List RawData) (m : ExtractMetrics),
        (mode = RunMode.default ∨ mode = RunMode.old_codes) →
        (∀ e, (fetch e d d).Pairwise (fun a b => a.1 ≠ b.1)) →
        (∀ e, ∀ row ∈ fetch e d d, row.1 = d) →
        extract_data fetch exprs d d mode ft s = .ok (out, m) →
        (∀ e' d', raw_count s e' d' ≤ 3) →
        ∀ e' d', raw_count out e' d' ≤ 3)
    ∧ (∀ (fetch : String → Nat → Nat → List (Nat × ℚ)) (e : String)
        (d ft : Nat) (s : List RawData) (mode : RunMode),
        (mode = RunMode.default ∨ mode = RunMode.old_codes) →
        3 ≤ raw_count s e d →
        (extract_data fetch [e] d d mode ft s).map Prod.fst
          = Except.ok s) := by
  refine ⟨?_, ?_, ?_, ?_⟩
  · intro s e sd ed mode hmode
    rcases hmode with rfl | rfl <;> simp [should_fetch_data]
  · intro s e sd ed
    rfl
  · intro fetch exprs d mode ft s out m hmode hpair hdates hres hcap
    rw [extract_data, if_neg (by simp)] at hres
    have hfold :
        (exprs.foldl (extract_step fetch d d mode ft)
          (s, init_extract_metrics)) = (out, m) := by
      exact Except.ok.inj hres
    intro e' d'
    have hres' := @extract_fold_cap fetch d mode ft hmode hpair hdates exprs
      (s, init_extract_metrics) (fun e'' d'' => hcap e'' d'') e' d'
    rw [hfold] at hres'
    exact hres'
  · intro fetch e d ft s mode hmode h3
    rw [extract_data, if_neg (by simp), List.foldl_cons, List.foldl_nil]
    have hsf : should_fetch_data s e d d mode = false := by
      rcases hmode with rfl | rfl <;> (simp [should_fetch_data]; omega)
    by_cases hV : valid_api_request e d d
    · simp only [extract_step]
      rw [if_neg (by simp [hV]), if_pos (by simp [hsf])]
      rfl
    · simp only [extract_step]
      rw [if_pos (by simp [hV])]
      rfl

/-- Witness for C3 at concrete stores: the gate iff on an empty store, the
cap conclusion for an empty run, and the no-op of a fourth fetch attempt. -/
theorem claim_c3_version_cap_witness :
    (should_fetch_data [] "E" 0 0 RunMode.default = true ↔ raw_count [] "E" 0 < 3)
    ∧ raw_count ([] : List RawData) "E" 0 ≤ 3
    ∧ (extract_data (fun _ _ _ => [(0, 1)]) ["E"] 0 0 RunMode.default 9
        [⟨1, "E", 0, 1, 5, 1, RunMode.default, "u"⟩,
         ⟨2, "E", 0, 1, 5, 2, RunMode.default, "u"⟩,
         ⟨3, "E", 0, 1, 5, 3, RunMode.default, "u"⟩]).map Prod.fst
      = Except.ok
        [⟨1, "E", 0, 1, 5, 1, RunMode.default, "u"⟩,
         ⟨2, "E", 0, 1, 5, 2, RunMode.default, "u"⟩,
         ⟨3, "E", 0, 1, 5, 3, RunMode.default, "u"⟩] :=
  ⟨claim_c3_version_cap.1 [] "E" 0 0 RunMode.default (Or.inl rfl),
   claim_c3_version_cap.2.2.1 (fun _ _ _ => []) [] 0 RunMode.default 0 [] []
     init_extract_metrics (Or.inl rfl) (fun _ => List.Pairwise.nil)
     (fun _ row hr => absurd hr (List.not_mem_nil row)) (by decide)
     (fun e' d' => by simp [raw_count]) "E" 0,
   claim_c3_version_cap.2.2.2 (fun _ _ _ => [(0, 1)]) "E" 0 9
     [⟨1, "E", 0, 1, 5, 1, RunMode.default, "u"⟩,
      ⟨2, "E", 0, 1, 5, 2, RunMode.default, "u"⟩,
      ⟨3, "E", 0, 1, 5, 3, RunMode.default, "u"⟩]
     RunMode.default (Or.inl rfl) (by decide)⟩

/-! ## C2: version assignment is gapless and unique -/

/-- C2: starting from an empty table, any sequence of single-fact raw
inserts — arbitrarily interleaved across `(expression, date)` pairs — leaves
each pair with versions exactly `1, 2, …, N` (where `N` is the number of
inserts for that pair), hence duplicate-free; and each insert assigns
version `1 + max existing version` for its pair (so 1 when none exists,
`max_version` of an empty selection being 0). -/
theorem claim_c2_version_assignment (ops : List (String × Nat × ℚ))
    (uri : String) (mode : RunMode) (ft : Nat)
    (hpos : ∀ op ∈ ops, (0 : ℚ) < op.2.2) :
    (∀ e d, versions_for (apply_raw_inserts ops uri mode ft []) e d
        = List.range' 1 (ops.countP (fun op => op.1 = e ∧ op.2.1 = d)))
    ∧ (∀ e d, (versions_for (apply_raw_inserts ops uri mode ft []) e d).Nodup)
    ∧ (∀ (s : List RawData) (e : String) (d : Nat) (v : ℚ), (0 : ℚ) < v →
        (insert_raw_data s [(d, v)] e uri mode ft).1
          = insert_raw_row s e d v uri mode ft
        ∧ versions_for (insert_raw_row s e d v uri mode ft) e d
          = versions_for s e d ++ [max_version s e d + 1]) := by
  obtain ⟨hI, hL⟩ :=
    apply_raw_inserts_spec uri mode ft ops [] hpos raw_versions_invariant_nil
  have hmain : ∀ e d, versions_for (apply_raw_inserts ops uri mode ft []) e d
      = List.range' 1 (ops.countP (fun op => op.1 = e ∧ op.2.1 = d)) := by
    intro e d
    have hx := hI e d
    rw [hL e d] at hx
    simpa [versions_for] using hx
  refine ⟨hmain, fun e d => ?_, fun s e d v hv => ⟨?_, ?_⟩⟩
  · rw [hmain e d]
    exact List.nodup_range' _ _
  · rw [insert_raw_data_singleton, if_pos hv]
  · rw [insert_raw_row_versions]
    simp

/-- Witness for C2 at a concrete interleaved sequence of inserts. -/
theorem claim_c2_version_assignment_witness :
    versions_for (apply_raw_inserts
        [("E", 0, 1), ("F", 1, 2), ("E", 0, 3)] "u" RunMode.default 7 []) "E" 0
      = List.range' 1 (List.countP
          (fun op => op.1 = "E" ∧ op.2.1 = 0)
          [("E", 0, 1), ("F", 1, 2), ("E", 0, 3)]) :=
  (claim_c2_version_assignment [("E", 0, 1), ("F", 1, 2), ("E", 0, 3)]
    "u" RunMode.default 7 (by decide)).1 "E" 0

/-! ## Helper lemmas for the integrity check -/

theorem count_repeats_eq (l : List (String × Nat)) :
    ∀ seen : List (String × Nat),
    count_repeats seen l = l.length - (l.toFinset \ seen.toFinset).card := by
  induction l with
  | nil => intro seen; simp [count_repeats]
  | cons p ps ih =>
    intro seen
    have hcard_le : (ps.toFinset \ seen.toFinset).card ≤ ps.length :=
      le_trans (Finset.card_le_card Finset.sdiff_subset) ps.toFinset_card_le
    by_cases hp : p ∈ seen
    · have hmem : p ∈ seen.toFinset := List.mem_toFinset.mpr hp
      rw [count_repeats, if_pos hp, ih seen, List.toFinset_cons,
        Finset.insert_sdiff_of_mem _ hmem, List.length_cons]
      omega
    · have hnmem : p ∉ seen.toFinset := fun hh => hp (List.mem_toFinset.mp hh)
      have hid1 : ps.toFinset \ (insert p seen.toFinset)
          = (ps.toFinset \ seen.toFinset).erase p := by
        ext a
        simp only [Finset.mem_sdiff, Finset.mem_erase, Finset.mem_insert]
        constructor
        · rintro ⟨ha, hns⟩
          push_neg at hns
          exact ⟨hns.1, ha, hns.2⟩
        · rintro ⟨hne, ha, hns⟩
          exact ⟨ha, by push_neg; exact ⟨hne, hns⟩⟩
      have hid2 : (insert p ps.toFinset) \ seen.toFinset
          = insert p (ps.toFinset \ seen.toFinset) := by
        ext a
        simp only [Finset.mem_sdiff, Finset.mem_insert]
        constructor
        · rintro ⟨rfl | ha, hs⟩
          · exact Or.inl rfl
          · exact Or.inr ⟨ha, hs⟩
        · rintro (rfl | ⟨ha, hs⟩)
          · exact ⟨Or.inl rfl, hnmem⟩
          · exact ⟨Or.inr ha, hs⟩
      rw [count_repeats, if_neg hp, ih (p :: seen), List.toFinset_cons,
        List.toFinset_cons, hid1, hid2, List.length_cons]
      by_cases hpX : p ∈ ps.toFinset \ seen.toFinset
      · rw [Finset.card_erase_of_mem hpX, Finset.card_insert_of_mem hpX]
        have hge : 1 ≤ (ps.toFinset \ seen.toFinset).card :=
          Finset.card_pos.mpr ⟨p, hpX⟩
        omega
      · rw [Finset.erase_eq_of_not_mem hpX, Finset.card_insert_of_not_mem hpX]
        omega

theorem validate_some {raws : List RawData} {cleans : List CleanData}
    {latest : Nat} (hl : latest_fetch_timestamp raws = some latest) :
    validate_clean_data_integrity raws cleans
      = integrity_for_latest raws cleans latest := by
  unfold validate_clean_data_integrity
  rw [hl]

theorem integrity_for_latest_spec (raws : List RawData)
    (cleans : List CleanData) (latest : Nat) :
    (integrity_for_latest raws cleans latest).duplicate_combinations
      = count_repeats [] (joined_pairs raws cleans latest)
    ∧ ((integrity_for_latest raws cleans latest).valid = false ↔
        0 < count_repeats [] (joined_pairs raws cleans latest)) := by
  have hjp : (joined_clean_at_latest raws cleans latest).map
      (fun c => (c.expression, c.date)) = joined_pairs raws cleans latest := rfl
  rw [integrity_for_latest]
  simp only [hjp]
  by_cases hd : 0 < count_repeats [] (joined_pairs raws cleans latest)
  · rw [if_pos hd]
    exact ⟨rfl, by simpa using hd⟩
  · rw [if_neg hd]
    constructor
    · show (0 : Nat) = count_repeats [] (joined_pairs raws cleans latest)
      omega
    · show (true = false) ↔ _
      simp only [show (true = false) = False by simp, false_iff]
      exact hd

/-! ## C7: what the integrity check counts -/

/-- C7 counterexample: with three clean rows sharing one `(expression, date)`
at the latest fetch timestamp, the code's `duplicate_combinations` is the
total number of occurrences beyond the first (here 2), not the number of
distinct pairs occurring more than once (here 1) as the claim states. -/
theorem claim_c7_counterexample :
    (validate_clean_data_integrity
        [⟨1, "E", 0, 1, 5, 1, RunMode.default, "u"⟩]
        [⟨"E", 0, "USD", "1y", "2y", "Libor", 5, 1⟩,
         ⟨"E", 0, "USD", "1y", "2y", "Libor", 5, 1⟩,
         ⟨"E", 0, "USD", "1y", "2y", "Libor", 5, 1⟩]).duplicate_combinations
      ≠ spec_duplicate_pair_count
          (joined_pairs
            [⟨1, "E", 0, 1, 5, 1, RunMode.default, "u"⟩]
            [⟨"E", 0, "USD", "1y", "2y", "Libor", 5, 1⟩,
             ⟨"E", 0, "USD", "1y", "2y", "Libor", 5, 1⟩,
             ⟨"E", 0, "USD", "1y", "2y", "Libor", 5, 1⟩] 5) := by decide

/-- C7 amended: the integrity check joins clean rows to raw rows on
`(expression, date)` restricted to the most recent `fetch_timestamp` and
reports as `duplicate_combinations` the total number of occurrences of
`(expression, date)` pairs beyond their first in that result set
(`length - number of distinct pairs`), with `valid = false` exactly when
that count is positive; the two-row scenario reports `valid = false` and
`duplicate_count = 1`. -/
theorem claim_c7_integrity_check_amended :
    (∀ (raws : List RawData) (cleans : List CleanData) (latest : Nat),
      latest_fetch_timestamp raws = some latest →
      (validate_clean_data_integrity raws cleans).duplicate_combinations
        = (joined_pairs raws cleans latest).length
          - (joined_pairs raws cleans latest).toFinset.card
      ∧ ((validate_clean_data_integrity raws cleans).valid = false ↔
          (joined_pairs raws cleans latest).toFinset.card
            < (joined_pairs raws cleans latest).length))
    ∧ (validate_clean_data_integrity
          [⟨1, "E", 0, 1, 5, 1, RunMode.default, "u"⟩]
          [⟨"E", 0, "USD", "1y", "2y", "Libor", 5, 1⟩,
           ⟨"E", 0, "USD", "1y", "2y", "Libor", 5, 1⟩]).valid = false
    ∧ (validate_clean_data_integrity
          [⟨1, "E", 0, 1, 5, 1, RunMode.default, "u"⟩]
          [⟨"E", 0, "USD", "1y", "2y", "Libor", 5, 1⟩,
           ⟨"E", 0, "USD", "1y", "2y", "Libor", 5, 1⟩]).duplicate_combinations
        = 1 := by
  refine ⟨?_, by decide, by decide⟩
  intro raws cleans latest hl
  have hspec := integrity_for_latest_spec raws cleans latest
  have hrep : count_repeats [] (joined_pairs raws cleans latest)
      = (joined_pairs raws cleans latest).length
        - (joined_pairs raws cleans latest).toFinset.card := by
    rw [count_repeats_eq]
    simp
  have hle : (joined_pairs raws cleans latest).toFinset.card
      ≤ (joined_pairs raws cleans latest).length :=
    (joined_pairs raws cleans latest).toFinset_card_le
  rw [validate_some hl]
  refine ⟨hspec.1.trans hrep, hspec.2.trans ?_⟩
  rw [hrep]
  omega

/-- Witness for C7's amended statement at a concrete store. -/
theorem claim_c7_integrity_check_amended_witness :
    (validate_clean_data_integrity
        [⟨1, "E", 0, 1, 5, 1, RunMode.default, "u"⟩]
        [⟨"E", 0, "USD", "1y", "2y", "Libor", 5, 1⟩]).duplicate_combinations
      = (joined_pairs [⟨1, "E", 0, 1, 5, 1, RunMode.default, "u"⟩]
            [⟨"E", 0, "USD", "1y", "2y", "Libor", 5, 1⟩] 5).length
        - (joined_pairs [⟨1, "E", 0, 1, 5, 1, RunMode.default, "u"⟩]
            [⟨"E", 0, "USD", "1y", "2y", "Libor", 5, 1⟩] 5).toFinset.card :=
  (claim_c7_integrity_check_amended.1
    [⟨1, "E", 0, 1, 5, 1, RunMode.default, "u"⟩]
    [⟨"E", 0, "USD", "1y", "2y", "Libor", 5, 1⟩] 5 (by decide)).1

end MarketData
